import Mathlib

/-!
# Verification of the tab-organizer backend extraction pipeline

Shallow embedding of the `POST /group-tabs` handler of `src/server.js`:
input validation, prompt construction, the retry loop around the upstream
call, response text extraction, JSON recovery (direct `JSON.parse`, then the
fenced-code-block regex, then the bare-brace regex), and the final structural
validation, together with the HTTP status/body mapping.

JavaScript values returned by `JSON.parse` are modelled by `JsonValue`
(numbers as rationals; astral/UTF-16 and unicode-whitespace corner cases of
the JS runtime are out of scope, only ASCII whitespace classes are modelled).
-/

set_option maxHeartbeats 1000000
set_option maxRecDepth 100000

namespace TabOrganizer

/-- A parsed JSON number in decimal scientific form `mant * 10 ^ exp10`
(JS parses numbers to doubles; this model keeps the exact decimal reading,
which agrees with JS on the integer values this service works with). -/
structure JNum where
  mant : Int
  exp10 : Int
deriving DecidableEq

/-- The JSON number denoting the integer `n`. -/
def intNum (n : Int) : JNum := ⟨n, 0⟩

/-- Result of `JSON.parse`: a JSON value.  Objects keep their key/value pairs
in textual order (JS objects would collapse duplicate keys; the theorems that
need it assume distinct keys). -/
inductive JsonValue where
  | null : JsonValue
  | bool (b : Bool) : JsonValue
  | num (q : JNum) : JsonValue
  | str (s : String) : JsonValue
  | arr (xs : List JsonValue) : JsonValue
  | obj (kvs : List (String × JsonValue)) : JsonValue

/-- JSON whitespace, as accepted by `JSON.parse` between tokens:
space, tab, line feed, carriage return. -/
def isJsonWs (c : Char) : Bool :=
  c = ' ' || c = '\t' || c = '\n' || c = '\r'

/-- Whitespace class of the JavaScript regex `\s` (ASCII part):
space, tab, line feed, carriage return, form feed, vertical tab. -/
def isRegexWs (c : Char) : Bool :=
  c = ' ' || c = '\t' || c = '\n' || c = '\r' || c = '\x0c' || c = '\x0b'

/-- Skip JSON whitespace. -/
def skipWs (cs : List Char) : List Char := cs.dropWhile isJsonWs

def isDig (c : Char) : Bool := '0' ≤ c && c ≤ '9'

def digVal (c : Char) : Nat := c.toNat - 48

/-- Consume a run of decimal digits, accumulating their value
(`acc` is the value of the digits already consumed). -/
def parseDigits (acc : Nat) : List Char → Nat × List Char
  | [] => (acc, [])
  | c :: rest =>
    if isDig c then parseDigits (acc * 10 + digVal c) rest else (acc, c :: rest)

/-- Consume a run of decimal digits, also counting how many were consumed
(used for the fractional part). -/
def parseDigitsCount (acc : Nat) (k : Nat) : List Char → Nat × Nat × List Char
  | [] => (acc, k, [])
  | c :: rest =>
    if isDig c then parseDigitsCount (acc * 10 + digVal c) (k + 1) rest
    else (acc, k, c :: rest)

/-- Parse the integer part of a JSON number after the optional sign:
`0`, or a nonzero digit followed by digits. -/
def parseIntPart : List Char → Option (Nat × List Char)
  | [] => none
  | c :: rest =>
    if c = '0' then some (0, rest)
    else if isDig c then some (parseDigits (digVal c) rest)
    else none

/-- Parse the optional fractional part `.digits`, returning the digits'
value and their count. -/
def parseFracPart : List Char → Option (Nat × Nat × List Char)
  | [] => some (0, 0, [])
  | c :: rest =>
    if c = '.' then
      match rest with
      | [] => none
      | d :: _ =>
        if isDig d then
          let r := parseDigitsCount 0 0 rest
          some (r.1, r.2.1, r.2.2)
        else none
    else some (0, 0, c :: rest)

/-- Parse the optional exponent part `e[+-]digits`, returning the signed
exponent. -/
def parseExpPart : List Char → Option (ℤ × List Char)
  | [] => some (0, [])
  | c :: rest =>
    if c = 'e' ∨ c = 'E' then
      match rest with
      | [] => none
      | d :: ds =>
        if d = '+' then
          match ds with
          | [] => none
          | e :: _ => if isDig e then some ((parseDigits 0 ds).1, (parseDigits 0 ds).2) else none
        else if d = '-' then
          match ds with
          | [] => none
          | e :: _ => if isDig e then some (-((parseDigits 0 ds).1 : ℤ), (parseDigits 0 ds).2) else none
        else if isDig d then some ((parseDigits 0 (d :: ds)).1, (parseDigits 0 (d :: ds)).2)
        else none
    else some (0, c :: rest)

/-- Parse an unsigned JSON number (integer part, optional fraction and
exponent). -/
def parsePosNumber (cs : List Char) : Option (JNum × List Char) :=
  match parseIntPart cs with
  | none => none
  | some (ip, cs1) =>
    match parseFracPart cs1 with
    | none => none
    | some (fv, k, cs2) =>
      match parseExpPart cs2 with
      | none => none
      | some (ex, cs3) => some (⟨(ip : Int) * (10 : Int) ^ k + (fv : Int), ex - (k : Int)⟩, cs3)

/-- Parse a JSON number (optional minus sign, then the unsigned part). -/
def parseNumber : List Char → Option (JNum × List Char)
  | [] => none
  | c :: rest =>
    if c = '-' then (parsePosNumber rest).map (fun r => (⟨-r.1.mant, r.1.exp10⟩, r.2))
    else parsePosNumber (c :: rest)

/-- Value of an escape character after a backslash (simple escapes only). -/
def escChar (c : Char) : Option Char :=
  if c = '"' then some '"'
  else if c = '\\' then some '\\'
  else if c = '/' then some '/'
  else if c = 'b' then some '\x08'
  else if c = 'f' then some '\x0c'
  else if c = 'n' then some '\n'
  else if c = 'r' then some '\r'
  else if c = 't' then some '\t'
  else none

def hexVal (c : Char) : Option Nat :=
  if isDig c then some (digVal c)
  else if 'a' ≤ c ∧ c ≤ 'f' then some (c.toNat - 87)
  else if 'A' ≤ c ∧ c ≤ 'F' then some (c.toNat - 55)
  else none

/-- Parse the body of a JSON string after the opening quote, up to and
including the closing quote; returns the decoded characters and the rest. -/
def parseStrChars : List Char → Option (List Char × List Char)
  | [] => none
  | c :: rest =>
    if c = '"' then some ([], rest)
    else if c = '\\' then
      match rest with
      | [] => none
      | e :: rest1 =>
        if e = 'u' then
          match rest1 with
          | h1 :: h2 :: h3 :: h4 :: rest2 =>
            match hexVal h1, hexVal h2, hexVal h3, hexVal h4 with
            | some a, some b, some c2, some d =>
              (parseStrChars rest2).map
                (fun r => (Char.ofNat (((a * 16 + b) * 16 + c2) * 16 + d) :: r.1, r.2))
            | _, _, _, _ => none
          | _ => none
        else
          match escChar e with
          | some ec => (parseStrChars rest1).map (fun r => (ec :: r.1, r.2))
          | none => none
    else if c.toNat < 32 then none
    else (parseStrChars rest).map (fun r => (c :: r.1, r.2))

/-- Strip an expected literal character sequence. -/
def expectChars : List Char → List Char → Option (List Char)
  | [], cs => some cs
  | _ :: _, [] => none
  | p :: ps, c :: cs => if c = p then expectChars ps cs else none

mutual

/-- Parse a JSON value (leading whitespace allowed), fuel-bounded.
Fuel `cs.length + 1` always suffices. -/
def parseValue (fuel : Nat) (cs : List Char) : Option (JsonValue × List Char) :=
  match fuel with
  | 0 => none
  | fuel + 1 =>
    match skipWs cs with
    | [] => none
    | c :: rest =>
      if c = '{' then
        match skipWs rest with
        | c2 :: r => if c2 = '}' then some (.obj [], r)
                     else (parseMembers fuel rest).map (fun r => (.obj r.1, r.2))
        | [] => none
      else if c = '[' then
        match skipWs rest with
        | c2 :: r => if c2 = ']' then some (.arr [], r)
                     else (parseElems fuel rest).map (fun r => (.arr r.1, r.2))
        | [] => none
      else if c = '"' then (parseStrChars rest).map (fun r => (.str ⟨r.1⟩, r.2))
      else if c = 't' then (expectChars ['r', 'u', 'e'] rest).map (fun r => (.bool true, r))
      else if c = 'f' then (expectChars ['a', 'l', 's', 'e'] rest).map (fun r => (.bool false, r))
      else if c = 'n' then (expectChars ['u', 'l', 'l'] rest).map (fun r => (.null, r))
      else (parseNumber (c :: rest)).map (fun r => (.num r.1, r.2))

/-- Parse the (non-empty) member list of an object, up to and including the
closing brace. -/
def parseMembers (fuel : Nat) (cs : List Char) : Option (List (String × JsonValue) × List Char) :=
  match fuel with
  | 0 => none
  | fuel + 1 =>
    match skipWs cs with
    | [] => none
    | c :: rest =>
      if c = '"' then
        match parseStrChars rest with
        | none => none
        | some (k, r1) =>
          match skipWs r1 with
          | [] => none
          | c2 :: r2 =>
            if c2 = ':' then
              match parseValue fuel r2 with
              | none => none
              | some (v, r3) =>
                match skipWs r3 with
                | [] => none
                | c3 :: r4 =>
                  if c3 = ',' then (parseMembers fuel r4).map (fun r => ((⟨k⟩, v) :: r.1, r.2))
                  else if c3 = '}' then some ([(⟨k⟩, v)], r4)
                  else none
            else none
      else none

/-- Parse the (non-empty) element list of an array, up to and including the
closing bracket. -/
def parseElems (fuel : Nat) (cs : List Char) : Option (List JsonValue × List Char) :=
  match fuel with
  | 0 => none
  | fuel + 1 =>
    match parseValue fuel cs with
    | none => none
    | some (v, r1) =>
      match skipWs r1 with
      | [] => none
      | c2 :: r2 =>
        if c2 = ',' then (parseElems fuel r2).map (fun r => (v :: r.1, r.2))
        else if c2 = ']' then some ([v], r2)
        else none

end

/-- `JSON.parse`: strict parse of the whole text (trailing whitespace
allowed). -/
def parseJson (s : String) : Option JsonValue :=
  match parseValue (s.data.length + 1) s.data with
  | none => none
  | some (v, rest) => if skipWs rest = [] then some v else none

/-! ## The two recovery regexes of the handler

`resultText.match(/\x60\x60\x60(?:json)?\s*(\{[\s\S]*?\})\s*\x60\x60\x60/)`
and `resultText.match(/(\{[\s\S]*\})/)`, modelled as explicit scans with the
same leftmost-match, lazy/greedy semantics. -/

/-- After the candidate closing brace of the lazy group, the regex requires
`\s*` followed by three backticks. -/
def fenceAfter (cs : List Char) : Bool :=
  match cs.dropWhile isRegexWs with
  | '`' :: '`' :: '`' :: _ => true
  | _ => false

/-- Scan for the lazy close of the group `(\{[\s\S]*?\})`: the first `}`
whose suffix matches `\s*` then three backticks; `acc` holds the group
content read so far, reversed. -/
def findClose (acc : List Char) : List Char → Option (List Char)
  | [] => none
  | c :: rest =>
    if c = '}' && fenceAfter rest then some acc.reverse
    else findClose (c :: acc) rest

/-- Drop a literal `json` tag if it immediately follows the opening
backticks (the `(?:json)?` part; if the tag is present but the rest fails,
the empty alternative also fails at the letter `j`, so committing is
faithful). -/
def stripJsonTag (cs : List Char) : List Char :=
  match cs with
  | c1 :: c2 :: c3 :: c4 :: rest =>
    if c1 = 'j' && c2 = 's' && c3 = 'o' && c4 = 'n' then rest else cs
  | _ => cs

/-- Try the fenced-block regex anchored at this position: three backticks,
optional `json` tag, `\s*`, then the lazy brace group.  Returns the captured
group (braces included). -/
def tryFenceAt (cs : List Char) : Option (List Char) :=
  match cs with
  | c1 :: c2 :: c3 :: rest =>
    if c1 = '`' && c2 = '`' && c3 = '`' then
      match (stripJsonTag rest).dropWhile isRegexWs with
      | [] => none
      | c :: body =>
        if c = '{' then (findClose [] body).map (fun content => '{' :: content ++ ['}'])
        else none
    else none
  | _ => none

/-- Leftmost match of the fenced-block regex: try each start position left to
right. -/
def matchFenced : List Char → Option (List Char)
  | [] => none
  | c :: rest =>
    match tryFenceAt (c :: rest) with
    | some g => some g
    | none => matchFenced rest

/-- Leftmost-greedy match of `(\{[\s\S]*\})`: the span from the first `{` to
the last `}`, when the first `{` comes before the last `}`. -/
def matchBare (cs : List Char) : Option (List Char) :=
  match cs.dropWhile (fun c => ¬(c = '{')) with
  | [] => none
  | d =>
    match (d.reverse.dropWhile (fun c => ¬(c = '}'))).reverse with
    | [] => none
    | g => some g

/-- `resultText.substring(0, 500)` (by characters; UTF-16 code-unit
subtleties of astral characters are out of scope). -/
def jsTake500 (s : String) : String := ⟨s.data.take 500⟩

/-- Failure of the JSON recovery step. -/
inductive RecoverErr where
  | parseFailed (rawResponse : String) : RecoverErr
  | noJson (rawResponse : String) : RecoverErr

/-- The JSON recovery step of the handler: direct `JSON.parse`, else the
fenced regex, else the bare-brace regex; whichever regex matched first has
its group parsed once, and a parse failure there is final. -/
def recoverJson (text : String) : Except RecoverErr JsonValue :=
  match parseJson text with
  | some v => .ok v
  | none =>
    match matchFenced text.data with
    | some g =>
      match parseJson ⟨g⟩ with
      | some v => .ok v
      | none => .error (.parseFailed (jsTake500 text))
    | none =>
      match matchBare text.data with
      | some g =>
        match parseJson ⟨g⟩ with
        | some v => .ok v
        | none => .error (.parseFailed (jsTake500 text))
      | none => .error (.noJson (jsTake500 text))

/-! ## Canonical JSON rendering of a category mapping

Used to state the round-trip property: a mapping from strings to lists of
integers, rendered as compact JSON text. -/

/-- Decimal digits of a natural number, most significant first, fuel-bounded
(fuel `n + 1` always suffices). -/
def renderNatAux : Nat → Nat → List Char
  | 0, _ => []
  | fuel + 1, n =>
    if n < 10 then [Char.ofNat (48 + n)]
    else renderNatAux fuel (n / 10) ++ [Char.ofNat (48 + n % 10)]

def renderNat (n : Nat) : List Char := renderNatAux (n + 1) n

def renderInt (n : Int) : List Char :=
  if n < 0 then '-' :: renderNat n.natAbs else renderNat n.toNat

def renderElems : List Int → List Char
  | [] => []
  | [i] => renderInt i
  | i :: is => renderInt i ++ ',' :: renderElems is

def renderArr (l : List Int) : List Char := '[' :: renderElems l ++ [']']

def renderMember (k : String) (l : List Int) : List Char :=
  '"' :: k.data ++ '"' :: ':' :: renderArr l

def renderMembers : List (String × List Int) → List Char
  | [] => []
  | [(k, l)] => renderMember k l
  | (k, l) :: rest => renderMember k l ++ ',' :: renderMembers rest

def renderObjChars (M : List (String × List Int)) : List Char :=
  '{' :: renderMembers M ++ ['}']

def renderObj (M : List (String × List Int)) : String := ⟨renderObjChars M⟩

/-- The `JsonValue` a mapping denotes. -/
def toJson (M : List (String × List Int)) : JsonValue :=
  .obj (M.map (fun kv => (kv.1, .arr (kv.2.map (fun i => .num (intNum i))))))

/-- `p` + a markdown fence tagged `json` around `j` + `s`. -/
def fenceWrap (p s j : String) : String := p ++ "```json\n" ++ j ++ "\n```" ++ s

/-- Characters that render into a JSON string literally: no quote, no
backslash, no closing brace, no control characters. -/
def KeyOkL (l : List Char) : Prop :=
  ∀ c ∈ l, c ≠ '"' ∧ c ≠ '\\' ∧ c ≠ '}' ∧ 32 ≤ c.toNat

/-- A key that renders into a JSON string literally. -/
def KeyOk (k : String) : Prop := KeyOkL k.data

instance (l : List Char) : Decidable (KeyOkL l) :=
  List.decidableBAll _ l

instance (k : String) : Decidable (KeyOk k) :=
  List.decidableBAll _ k.data

/-! ## The request/response model of the handler -/

structure Tab where
  id : Int
  title : String
  url : String

/-- One line of the prompt: `` ID:<id> | <title> (<url>) ``. -/
def fmtTab (t : Tab) : String :=
  "ID:" ++ toString t.id ++ " | " ++ t.title ++ " (" ++ t.url ++ ")"

/-- `Array.prototype.join(sep)`. -/
def joinSep (sep : String) : List String → String
  | [] => ""
  | x :: xs => xs.foldl (fun acc y => acc ++ sep ++ y) x

/-- The fixed instruction template up to the interpolated tab lines. -/
def promptHeader : String :=
  "You are an AI assistant that groups browser tabs into relevant categories. Analyze these browser tabs and group them by topic/purpose.\n\nReturn ONLY a valid JSON object with NO markdown, NO code blocks, NO explanations. Just the raw JSON.\n\nThe JSON should have category names as keys (strings) and arrays of tab IDs (integers) as values.\n\nExample format:\n\x7b\"Shopping\": [1, 5], \"News\": [2, 3], \"Development\": [4, 6]\x7d\n\nHere are the tabs to group:\n"

def buildPrompt (lines : List String) : String := promptHeader ++ joinSep "\n" lines

/-- A thrown JavaScript error, reduced to its `message`. -/
structure JsError where
  message : String

structure GPart where
  text : Option String

structure GContent where
  parts : Option (List GPart)

structure GCand where
  content : Option GContent

/-- The polymorphic upstream completion response: a bare string, or an object
carrying the fields the handler reads (a direct `text` field and/or a
`candidates` structure). -/
inductive UResp where
  | str (s : String) : UResp
  | obj (text : Option String) (candidates : Option (List GCand)) : UResp

/-- `response.text` (a bare string has no `text` property). -/
def directText : UResp → Option String
  | .obj t _ => t
  | .str _ => none

/-- `response.candidates?.[0]?.content?.parts?.[0]?.text`. -/
def nestedText : UResp → Option String
  | .obj _ (some (c :: _)) => ((c.content.bind GContent.parts).bind List.head?).bind GPart.text
  | _ => none

/-- JS truthiness of a possibly-absent string: present and non-empty. -/
def truthyStr : Option String → Bool
  | some s => s != ""
  | none => false

/-- The three-way text extraction: non-empty direct field, else non-empty
nested candidate text, else the response itself when it is a string. -/
def extractText (r : UResp) : Option String :=
  if truthyStr (directText r) then directText r
  else if truthyStr (nestedText r) then nestedText r
  else
    match r with
    | .str s => some s
    | _ => none

/-- `Object.keys(response)` restricted to the fields the model tracks. -/
def respKeys : UResp → List JsonValue
  | .str _ => []
  | .obj t c =>
    (match t with
     | some _ => [JsonValue.str "text"]
     | none => []) ++
    (match c with
     | some _ => [JsonValue.str "candidates"]
     | none => [])

/-- The JavaScript value of the request body's `tabs` field. -/
inductive TabsVal where
  | undef : TabsVal
  | nullv : TabsVal
  | arr (ts : List Tab) : TabsVal
  | str (s : String) : TabsVal
  | plainObj : TabsVal
  | num (n : Int) : TabsVal
  | boolv (b : Bool) : TabsVal

/-- JS truthiness of the `tabs` value (`!tabs` negated). -/
def truthyTabs : TabsVal → Bool
  | .undef => false
  | .nullv => false
  | .arr _ => true
  | .str s => s != ""
  | .plainObj => true
  | .num n => n != 0
  | .boolv b => b

/-- `tabs.length === 0`: only arrays and strings have a `length` property;
elsewhere `undefined === 0` is false. -/
def lengthIsZero : TabsVal → Bool
  | .arr ts => ts.length == 0
  | .str s => s.length == 0
  | _ => false

/-- The input-validation test `!tabs || tabs.length === 0`. -/
def tabsRejected (t : TabsVal) : Bool := !truthyTabs t || lengthIsZero t

/-- `tabs.map(tab => ...)`: arrays map; any non-array throws a `TypeError`
caught by the catch-all. -/
def jsMapTabs : TabsVal → Except JsError (List String)
  | .arr ts => .ok (ts.map fmtTab)
  | _ => .error ⟨"tabs.map is not a function"⟩

def maxAttempts : Nat := 3

/-- The retry loop: `attempts` failures so far, `calls` completed upstream
calls, `waits` the backoff sleeps performed so far.  The fuel argument only
bounds the recursion; from `attempts = 0` with fuel `maxAttempts` the
fuel-exhausted branch (the JS loop falling through with `response`
undefined) is unreachable. -/
def retryGo (oracle : Nat → Except JsError UResp) (fuel attempts : Nat)
    (waits : List Nat) (calls : Nat) : Except JsError UResp × List Nat × Nat :=
  match fuel with
  | 0 => (.error ⟨"no response"⟩, waits, calls)
  | fuel + 1 =>
    if attempts < maxAttempts then
      match oracle calls with
      | .ok r => (.ok r, waits, calls + 1)
      | .error e =>
        if attempts + 1 ≥ maxAttempts then (.error e, waits, calls + 1)
        else retryGo oracle fuel (attempts + 1) (waits ++ [1000 * (attempts + 1)]) (calls + 1)
    else (.error ⟨"no response"⟩, waits, calls)

def runRetry (oracle : Nat → Except JsError UResp) : Except JsError UResp × List Nat × Nat :=
  retryGo oracle maxAttempts 0 [] 0

/-- Outcome of one request: HTTP status, JSON body, number of upstream calls
made, and the backoff waits performed (in order, in milliseconds). -/
structure HRes where
  status : Nat
  body : JsonValue
  calls : Nat
  waits : List Nat

def noTabsBody : JsonValue := .obj [("error", .str "No tabs provided")]

def wrongBody (msg : String) : JsonValue :=
  .obj [("error", .str "Something went wrong"), ("details", .str msg)]

def unexpectedBody (r : UResp) : JsonValue :=
  .obj [("error", .str "Unexpected API response structure"),
        ("responseKeys", .arr (respKeys r))]

def parseFailedBody (raw : String) : JsonValue :=
  .obj [("error", .str "Failed to parse AI response as JSON"), ("rawResponse", .str raw)]

def noJsonBody (raw : String) : JsonValue :=
  .obj [("error", .str "No valid JSON found in AI response"), ("rawResponse", .str raw)]

def invalidBody (v : JsonValue) : JsonValue :=
  .obj [("error", .str "Invalid response structure from AI"), ("received", v)]

/-- JavaScript `typeof` on a value `JSON.parse` can produce. -/
def jsTypeof : JsonValue → String
  | .null => "object"
  | .bool _ => "boolean"
  | .num _ => "number"
  | .str _ => "string"
  | .arr _ => "object"
  | .obj _ => "object"

/-- The structural validation `typeof groups !== "object" || groups === null`. -/
def groupRejected (v : JsonValue) : Bool :=
  jsTypeof v != "object" ||
  (match v with
   | .null => true
   | _ => false)

/-- The post-retry stages of the handler: text extraction, JSON recovery,
structural validation, and the success response. -/
def handleResponse (resp : UResp) (calls : Nat) (waits : List Nat) : HRes :=
  match extractText resp with
  | none => ⟨500, unexpectedBody resp, calls, waits⟩
  | some text =>
    match recoverJson text with
    | .error (.parseFailed raw) => ⟨500, parseFailedBody raw, calls, waits⟩
    | .error (.noJson raw) => ⟨500, noJsonBody raw, calls, waits⟩
    | .ok groups =>
      if groupRejected groups then ⟨500, invalidBody groups, calls, waits⟩
      else ⟨200, groups, calls, waits⟩

/-- The whole `POST /group-tabs` handler. -/
def handleGroupTabs (tabs : TabsVal) (oracle : Nat → Except JsError UResp) : HRes :=
  if tabsRejected tabs then ⟨400, noTabsBody, 0, []⟩
  else
    match jsMapTabs tabs with
    | .error e => ⟨500, wrongBody e.message, 0, []⟩
    | .ok lines =>
      let _prompt := buildPrompt lines
      match runRetry oracle with
      | (.error e, waits, calls) => ⟨500, wrongBody e.message, calls, waits⟩
      | (.ok resp, waits, calls) => handleResponse resp calls waits

/-! ## Round-trip lemmas: decimal digits and numbers -/

theorem isDig_ne_of {c d : Char} (h1 : isDig c = true) (h2 : isDig d = false) : c ≠ d := by
  intro he
  subst he
  rw [h1] at h2
  cases h2

theorem isJsonWs_cases {c : Char} (h : isJsonWs c = true) :
    c = ' ' ∨ c = '\t' ∨ c = '\n' ∨ c = '\r' := by
  have := h
  simp only [isJsonWs, Bool.or_eq_true, decide_eq_true_eq] at this
  tauto

theorem isJsonWs_eq_false_of_isDig {c : Char} (h : isDig c = true) : isJsonWs c = false := by
  by_contra hw
  have hw' : isJsonWs c = true := by revert hw; cases isJsonWs c <;> simp
  rcases isJsonWs_cases hw' with h1 | h1 | h1 | h1 <;> (subst h1; cases h)

theorem isDig_char_ofNat {n : Nat} (h : n < 10) : isDig (Char.ofNat (48 + n)) = true := by
  interval_cases n <;> decide

theorem digVal_char_ofNat {n : Nat} (h : n < 10) : digVal (Char.ofNat (48 + n)) = n := by
  interval_cases n <;> decide

theorem char_ofNat_ne_zero {n : Nat} (h : n < 10) (h0 : n ≠ 0) : Char.ofNat (48 + n) ≠ '0' := by
  interval_cases n <;> first | omega | decide

theorem renderNatAux_digits {f : Nat} : ∀ {n : Nat}, n < f →
    ∀ c ∈ renderNatAux f n, isDig c = true := by
  induction f with
  | zero => omega
  | succ f ih =>
    intro n hn c hc
    rw [renderNatAux] at hc
    by_cases h10 : n < 10
    · rw [if_pos h10] at hc
      simp only [List.mem_singleton] at hc
      subst hc
      exact isDig_char_ofNat h10
    · rw [if_neg h10] at hc
      have hdiv : n / 10 < f := by
        have := Nat.div_lt_self (by omega : 0 < n) (by norm_num : 1 < 10)
        omega
      rcases List.mem_append.mp hc with hc | hc
      · exact ih hdiv c hc
      · simp only [List.mem_singleton] at hc
        subst hc
        exact isDig_char_ofNat (Nat.mod_lt _ (by norm_num))

theorem renderNatAux_cons {f : Nat} : ∀ {n : Nat}, n < f →
    ∃ c cs, renderNatAux f n = c :: cs ∧ isDig c = true ∧ (n ≠ 0 → c ≠ '0') := by
  induction f with
  | zero => omega
  | succ f ih =>
    intro n hn
    rw [renderNatAux]
    by_cases h10 : n < 10
    · rw [if_pos h10]
      exact ⟨_, _, rfl, isDig_char_ofNat h10, char_ofNat_ne_zero h10⟩
    · rw [if_neg h10]
      have hdiv : n / 10 < f := by
        have := Nat.div_lt_self (by omega : 0 < n) (by norm_num : 1 < 10)
        omega
      obtain ⟨c, cs, heq, hdig, hne⟩ := ih hdiv
      refine ⟨c, cs ++ [Char.ofNat (48 + n % 10)], ?_, hdig, fun _ => ?_⟩
      · rw [heq]; simp
      · exact hne (by omega)

theorem parseDigits_cons_dig {c : Char} (h : isDig c = true) (acc : Nat) (t : List Char) :
    parseDigits acc (c :: t) = parseDigits (acc * 10 + digVal c) t := by
  rw [parseDigits, if_pos h]

theorem parseDigits_append_renderNatAux {f : Nat} : ∀ {n : Nat}, n < f →
    ∀ (acc : Nat) (rest : List Char),
    parseDigits acc (renderNatAux f n ++ rest)
      = parseDigits (acc * 10 ^ (renderNatAux f n).length + n) rest := by
  induction f with
  | zero => omega
  | succ f ih =>
    intro n hn acc rest
    rw [renderNatAux]
    by_cases h10 : n < 10
    · rw [if_pos h10]
      rw [List.singleton_append, parseDigits_cons_dig (isDig_char_ofNat h10),
        digVal_char_ofNat h10]
      simp
    · rw [if_neg h10]
      have hdiv : n / 10 < f := by
        have := Nat.div_lt_self (by omega : 0 < n) (by norm_num : 1 < 10)
        omega
      rw [List.append_assoc, ih hdiv, List.singleton_append,
        parseDigits_cons_dig (isDig_char_ofNat (Nat.mod_lt _ (by norm_num))),
        digVal_char_ofNat (Nat.mod_lt _ (by norm_num))]
      have hlen : (renderNatAux f (n / 10) ++ [Char.ofNat (48 + n % 10)]).length
          = (renderNatAux f (n / 10)).length + 1 := by simp
      rw [hlen]
      congr 1
      have hdm : n / 10 * 10 + n % 10 = n := by omega
      generalize (renderNatAux f (n / 10)).length = L
      rw [pow_succ]
      ring_nf
      omega

theorem parseDigits_stop {rest : List Char}
    (h : ∀ c, rest.head? = some c → isDig c = false) (acc : Nat) :
    parseDigits acc rest = (acc, rest) := by
  cases rest with
  | nil => rfl
  | cons c t => rw [parseDigits, if_neg (by simp [h c rfl])]

theorem parseDigits_renderNat (n : Nat) (acc : Nat) {rest : List Char}
    (h : ∀ c, rest.head? = some c → isDig c = false) :
    parseDigits acc (renderNat n ++ rest) = (acc * 10 ^ (renderNat n).length + n, rest) := by
  rw [renderNat, parseDigits_append_renderNatAux (Nat.lt_succ_self n), parseDigits_stop h]

theorem renderNat_zero : renderNat 0 = ['0'] := rfl

theorem parseIntPart_renderNat (n : Nat) {rest : List Char}
    (h : ∀ c, rest.head? = some c → isDig c = false) :
    parseIntPart (renderNat n ++ rest) = some (n, rest) := by
  by_cases h0 : n = 0
  · subst h0
    rw [renderNat_zero, List.singleton_append, parseIntPart, if_pos rfl]
  · obtain ⟨c, cs, heq, hdig, hne⟩ := renderNatAux_cons (Nat.lt_succ_self n) (f := n + 1)
    rw [renderNat] at *
    rw [heq, List.cons_append, parseIntPart, if_neg (hne h0), if_pos hdig]
    have h1 : parseDigits 0 (renderNatAux (n + 1) n ++ rest)
        = (0 * 10 ^ (renderNatAux (n + 1) n).length + n, rest) := by
      rw [parseDigits_append_renderNatAux (Nat.lt_succ_self n), parseDigits_stop h]
    rw [heq, List.cons_append, parseDigits_cons_dig hdig] at h1
    simp only [Nat.zero_mul, Nat.zero_add] at h1 ⊢
    rw [h1]

theorem parseFracPart_stop {cs : List Char} (h : ∀ c, cs.head? = some c → c ≠ '.') :
    parseFracPart cs = some (0, 0, cs) := by
  cases cs with
  | nil => rfl
  | cons c t =>
    simp only [parseFracPart]
    rw [if_neg (h c rfl)]

theorem parseExpPart_stop {cs : List Char} (h : ∀ c, cs.head? = some c → c ≠ 'e' ∧ c ≠ 'E') :
    parseExpPart cs = some (0, cs) := by
  cases cs with
  | nil => rfl
  | cons c t =>
    simp only [parseExpPart]
    rw [if_neg]
    rintro (he | he) <;> [exact (h c rfl).1 he; exact (h c rfl).2 he]

/-- What may legally follow a rendered number so that the parser stops
exactly at its end. -/
def HeadSafeNum (rest : List Char) : Prop :=
  ∀ c, rest.head? = some c → isDig c = false ∧ c ≠ '.' ∧ c ≠ 'e' ∧ c ≠ 'E'

theorem parsePosNumber_renderNat (m : Nat) {rest : List Char} (h : HeadSafeNum rest) :
    parsePosNumber (renderNat m ++ rest) = some (intNum (m : Int), rest) := by
  unfold parsePosNumber
  rw [parseIntPart_renderNat m (fun c hc => (h c hc).1)]
  dsimp only
  rw [parseFracPart_stop (fun c hc => (h c hc).2.1)]
  dsimp only
  rw [parseExpPart_stop (fun c hc => ⟨(h c hc).2.2.1, (h c hc).2.2.2⟩)]
  dsimp only
  simp [intNum]

theorem renderNat_head_ne_minus (m : Nat) :
    ∃ c cs, renderNat m = c :: cs ∧ c ≠ '-' := by
  obtain ⟨c, cs, heq, hdig, _⟩ := renderNatAux_cons (Nat.lt_succ_self m) (f := m + 1)
  exact ⟨c, cs, heq, isDig_ne_of hdig (by decide)⟩

theorem parseNumber_renderInt (n : Int) {rest : List Char} (h : HeadSafeNum rest) :
    parseNumber (renderInt n ++ rest) = some (intNum n, rest) := by
  by_cases hneg : n < 0
  · rw [renderInt, if_pos hneg, List.cons_append, parseNumber, if_pos rfl,
      parsePosNumber_renderNat n.natAbs h]
    have h1 : -((n.natAbs : Int)) = n := by omega
    dsimp only [intNum, Option.map]
    rw [h1]
  · rw [renderInt, if_neg hneg]
    obtain ⟨c, cs, heq, hne⟩ := renderNat_head_ne_minus n.toNat
    rw [heq, List.cons_append, parseNumber, if_neg hne, ← List.cons_append, ← heq,
      parsePosNumber_renderNat n.toNat h]
    have h1 : ((n.toNat : Int)) = n := by omega
    rw [h1]

/-! ## Round-trip lemmas: strings, arrays, objects -/

theorem skipWs_cons_not_ws {c : Char} {cs : List Char} (h : isJsonWs c = false) :
    skipWs (c :: cs) = c :: cs := by
  simp [skipWs, List.dropWhile_cons, h]

theorem string_mk_data (k : String) : String.mk k.data = k := rfl

theorem parseStrChars_append {l : List Char} (hk : KeyOkL l) (rest : List Char) :
    parseStrChars (l ++ '"' :: rest) = some (l, rest) := by
  induction l with
  | nil =>
    rw [List.nil_append, parseStrChars.eq_def]
    dsimp only
    rw [if_pos rfl]
  | cons c t ih =>
    have hc := hk c (List.mem_cons_self c t)
    have ht : KeyOkL t := fun d hd => hk d (List.mem_cons_of_mem c hd)
    rw [List.cons_append, parseStrChars.eq_def]
    dsimp only
    rw [if_neg hc.1, if_neg hc.2.1, if_neg (by omega : ¬c.toNat < 32), ih ht]
    rfl

theorem renderInt_head (n : Int) :
    ∃ c cs, renderInt n = c :: cs ∧ (c = '-' ∨ isDig c = true) := by
  by_cases hneg : n < 0
  · exact ⟨'-', _, by rw [renderInt, if_pos hneg], Or.inl rfl⟩
  · obtain ⟨c, cs, heq, hdig, _⟩ :=
      renderNatAux_cons (Nat.lt_succ_self n.toNat) (f := n.toNat + 1)
    exact ⟨c, cs, by rw [renderInt, if_neg hneg, renderNat]; exact heq, Or.inr hdig⟩

theorem renderInt_head_facts (n : Int) :
    ∃ c cs, renderInt n = c :: cs ∧ isJsonWs c = false ∧ c ≠ '{' ∧ c ≠ '[' ∧ c ≠ '"' ∧
      c ≠ 't' ∧ c ≠ 'f' ∧ c ≠ 'n' ∧ c ≠ ']' ∧ c ≠ '}' := by
  obtain ⟨c, cs, heq, hc⟩ := renderInt_head n
  refine ⟨c, cs, heq, ?_⟩
  rcases hc with rfl | hdig
  · refine ⟨by decide, by decide, by decide, by decide, by decide, by decide, by decide,
      by decide, by decide⟩
  · exact ⟨isJsonWs_eq_false_of_isDig hdig, isDig_ne_of hdig (by decide),
      isDig_ne_of hdig (by decide), isDig_ne_of hdig (by decide),
      isDig_ne_of hdig (by decide), isDig_ne_of hdig (by decide),
      isDig_ne_of hdig (by decide), isDig_ne_of hdig (by decide),
      isDig_ne_of hdig (by decide)⟩

theorem renderInt_length_pos (n : Int) : 1 ≤ (renderInt n).length := by
  obtain ⟨c, cs, heq, _⟩ := renderInt_head n
  rw [heq]
  simp

theorem parseValue_renderInt (n : Int) {rest : List Char} {fuel : Nat} (hf : 0 < fuel)
    (h : HeadSafeNum rest) :
    parseValue fuel (renderInt n ++ rest) = some (.num (intNum n), rest) := by
  obtain ⟨f, rfl⟩ : ∃ f, fuel = f + 1 := ⟨fuel - 1, by omega⟩
  obtain ⟨c, cs, heq, hws, h1, h2, h3, h4, h5, h6, _, _⟩ := renderInt_head_facts n
  rw [heq, List.cons_append]
  simp only [parseValue]
  rw [skipWs_cons_not_ws hws]
  dsimp only
  rw [if_neg h1, if_neg h2, if_neg h3, if_neg h4, if_neg h5, if_neg h6,
    ← List.cons_append, ← heq, parseNumber_renderInt n h]
  rfl

theorem headSafeNum_cons {c : Char} (h1 : isDig c = false) (h2 : c ≠ '.') (h3 : c ≠ 'e')
    (h4 : c ≠ 'E') (rest : List Char) : HeadSafeNum (c :: rest) := by
  intro d hd
  simp only [List.head?_cons, Option.some.injEq] at hd
  subst hd
  exact ⟨h1, h2, h3, h4⟩

theorem parseElems_renderElems {l : List Int} (hne : l ≠ []) :
    ∀ {fuel : Nat} {rest : List Char},
    (renderElems l ++ ']' :: rest).length < fuel →
    parseElems fuel (renderElems l ++ ']' :: rest)
      = some (l.map (fun i => JsonValue.num (intNum i)), rest) := by
  induction l with
  | nil => exact absurd rfl hne
  | cons i is ih =>
    intro fuel rest hfuel
    obtain ⟨f, rfl⟩ : ∃ f, fuel = f + 1 := ⟨fuel - 1, by omega⟩
    cases is with
    | nil =>
      have hlen : (renderElems [i] ++ ']' :: rest).length
          = (renderInt i).length + 1 + rest.length := by
        rw [show renderElems [i] = renderInt i from rfl]
        simp only [List.length_append, List.length_cons]
        omega
      rw [hlen] at hfuel
      have hf0 : 0 < f := by have := renderInt_length_pos i; omega
      simp only [parseElems]
      rw [show renderElems [i] = renderInt i from rfl,
        parseValue_renderInt i hf0
          (headSafeNum_cons (by decide) (by decide) (by decide) (by decide) rest)]
      dsimp only
      rw [skipWs_cons_not_ws (by decide)]
      dsimp only
      rw [if_neg (by decide), if_pos rfl]
      rfl
    | cons j js =>
      have hsplit : renderElems (i :: j :: js) = renderInt i ++ ',' :: renderElems (j :: js) := rfl
      rw [hsplit, List.append_assoc, List.cons_append] at hfuel ⊢
      simp only [List.length_append, List.length_cons] at hfuel
      have hp := renderInt_length_pos i
      simp only [parseElems]
      rw [parseValue_renderInt i (by omega)
        (headSafeNum_cons (by decide) (by decide) (by decide) (by decide) _)]
      dsimp only
      rw [skipWs_cons_not_ws (by decide)]
      dsimp only
      rw [if_pos rfl]
      have hrec : (renderElems (j :: js) ++ ']' :: rest).length < f := by
        simp only [List.length_append, List.length_cons]
        omega
      rw [ih (by simp) hrec]
      rfl

theorem renderElems_head {l : List Int} (hne : l ≠ []) :
    ∃ c cs, renderElems l = c :: cs ∧ isJsonWs c = false ∧ c ≠ ']' := by
  cases l with
  | nil => exact absurd rfl hne
  | cons i is =>
    obtain ⟨c, cs, heq, hws, _, _, _, _, _, _, hne2, _⟩ := renderInt_head_facts i
    cases is with
    | nil => exact ⟨c, cs, by rw [show renderElems [i] = renderInt i from rfl, heq], hws, hne2⟩
    | cons j js =>
      refine ⟨c, cs ++ ',' :: renderElems (j :: js), ?_, hws, hne2⟩
      rw [show renderElems (i :: j :: js) = renderInt i ++ ',' :: renderElems (j :: js) from rfl,
        heq, List.cons_append]

theorem parseValue_renderArr (l : List Int) {fuel : Nat} {rest : List Char}
    (hfuel : (renderArr l ++ rest).length < fuel) :
    parseValue fuel (renderArr l ++ rest)
      = some (.arr (l.map (fun i => JsonValue.num (intNum i))), rest) := by
  obtain ⟨f, rfl⟩ : ∃ f, fuel = f + 1 := ⟨fuel - 1, by omega⟩
  rw [renderArr, List.cons_append, List.cons_append, List.append_assoc,
    List.singleton_append]
  simp only [parseValue]
  rw [skipWs_cons_not_ws (by decide)]
  dsimp only
  rw [if_pos rfl]
  cases hl : l with
  | nil =>
    rw [show renderElems [] = [] from rfl, List.nil_append, skipWs_cons_not_ws (by decide)]
    dsimp only
    rw [if_pos rfl]
    rfl
  | cons i is =>
    obtain ⟨c, cs, heq, hws, hne⟩ := renderElems_head (l := i :: is) (by simp)
    rw [heq, List.cons_append, skipWs_cons_not_ws hws]
    dsimp only
    rw [if_neg hne, ← List.cons_append, ← heq]
    have hrec : (renderElems (i :: is) ++ ']' :: rest).length < f := by
      rw [hl, renderArr] at hfuel
      simp only [List.length_append, List.length_cons] at hfuel ⊢
      omega
    rw [parseElems_renderElems (by simp) hrec]
    rfl

theorem renderMember_length (k : String) (l : List Int) :
    (renderMember k l).length = k.data.length + (renderArr l).length + 3 := by
  simp [renderMember]
  omega

theorem parseMembers_renderMembers {M : List (String × List Int)} (hne : M ≠ [])
    (hk : ∀ kv ∈ M, KeyOkL kv.1.data) :
    ∀ {fuel : Nat} {rest : List Char},
    (renderMembers M ++ '}' :: rest).length < fuel →
    parseMembers fuel (renderMembers M ++ '}' :: rest)
      = some (M.map (fun kv => (kv.1, JsonValue.arr (kv.2.map fun i => JsonValue.num (intNum i)))),
          rest) := by
  induction M with
  | nil => exact absurd rfl hne
  | cons kv M ih =>
    intro fuel rest hfuel
    obtain ⟨k, l⟩ := kv
    obtain ⟨f, rfl⟩ : ∃ f, fuel = f + 1 := ⟨fuel - 1, by omega⟩
    have hkk : KeyOkL k.data := hk (k, l) (List.mem_cons_self _ _)
    cases M with
    | nil =>
      have hshape : renderMembers [(k, l)] ++ '}' :: rest
          = '"' :: (k.data ++ '"' :: (':' :: (renderArr l ++ '}' :: rest))) := by
        rw [show renderMembers [(k, l)] = renderMember k l from rfl, renderMember]
        simp
      rw [hshape]
      simp only [parseMembers]
      rw [skipWs_cons_not_ws (by decide)]
      dsimp only
      rw [if_pos rfl, parseStrChars_append hkk]
      dsimp only
      rw [skipWs_cons_not_ws (by decide)]
      dsimp only
      rw [if_pos rfl]
      have hrec : (renderArr l ++ '}' :: rest).length < f := by
        rw [hshape] at hfuel
        simp only [List.length_append, List.length_cons] at hfuel ⊢
        omega
      rw [parseValue_renderArr l hrec]
      dsimp only
      rw [skipWs_cons_not_ws (by decide)]
      dsimp only
      rw [if_neg (by decide), if_pos rfl, string_mk_data]
      rfl
    | cons kv2 M2 =>
      have hshape : renderMembers ((k, l) :: kv2 :: M2) ++ '}' :: rest
          = '"' :: (k.data ++ '"' :: (':' :: (renderArr l ++
              ',' :: (renderMembers (kv2 :: M2) ++ '}' :: rest)))) := by
        rw [show renderMembers ((k, l) :: kv2 :: M2)
            = renderMember k l ++ ',' :: renderMembers (kv2 :: M2) from rfl, renderMember]
        simp
      rw [hshape]
      simp only [parseMembers]
      rw [skipWs_cons_not_ws (by decide)]
      dsimp only
      rw [if_pos rfl, parseStrChars_append hkk]
      dsimp only
      rw [skipWs_cons_not_ws (by decide)]
      dsimp only
      rw [if_pos rfl]
      have hrec : (renderArr l ++ ',' :: (renderMembers (kv2 :: M2) ++ '}' :: rest)).length < f := by
        rw [hshape] at hfuel
        simp only [List.length_append, List.length_cons] at hfuel ⊢
        omega
      rw [parseValue_renderArr l hrec]
      dsimp only
      rw [skipWs_cons_not_ws (by decide)]
      dsimp only
      rw [if_pos rfl]
      have hrec2 : (renderMembers (kv2 :: M2) ++ '}' :: rest).length < f := by
        rw [hshape] at hfuel
        have := renderInt_length_pos
        simp only [List.length_append, List.length_cons] at hfuel ⊢
        omega
      rw [ih (by simp) (fun kv hkv => hk kv (List.mem_cons_of_mem _ hkv)) hrec2,
        string_mk_data]
      rfl

theorem renderMembers_head {M : List (String × List Int)} (hne : M ≠ []) :
    ∃ cs, renderMembers M = '"' :: cs := by
  cases M with
  | nil => exact absurd rfl hne
  | cons kv M =>
    obtain ⟨k, l⟩ := kv
    cases M with
    | nil => exact ⟨_, rfl⟩
    | cons kv2 M2 => exact ⟨_, rfl⟩

theorem parseValue_renderObjChars {M : List (String × List Int)}
    (hk : ∀ kv ∈ M, KeyOkL kv.1.data) {fuel : Nat} {rest : List Char}
    (hfuel : (renderObjChars M ++ rest).length < fuel) :
    parseValue fuel (renderObjChars M ++ rest) = some (toJson M, rest) := by
  obtain ⟨f, rfl⟩ : ∃ f, fuel = f + 1 := ⟨fuel - 1, by omega⟩
  rw [renderObjChars, List.cons_append, List.cons_append, List.append_assoc,
    List.singleton_append]
  simp only [parseValue]
  rw [skipWs_cons_not_ws (by decide)]
  dsimp only
  rw [if_pos rfl]
  cases hM : M with
  | nil =>
    rw [show renderMembers [] = [] from rfl, List.nil_append, skipWs_cons_not_ws (by decide)]
    dsimp only
    rw [if_pos rfl]
    rfl
  | cons kv M2 =>
    obtain ⟨cs, heq⟩ := renderMembers_head (M := kv :: M2) (by simp)
    rw [heq, List.cons_append, skipWs_cons_not_ws (by decide)]
    dsimp only
    rw [if_neg (by decide), ← List.cons_append, ← heq]
    have hrec : (renderMembers (kv :: M2) ++ '}' :: rest).length < f := by
      rw [hM, renderObjChars] at hfuel
      simp only [List.length_append, List.length_cons] at hfuel ⊢
      omega
    rw [parseMembers_renderMembers (by simp) (hM ▸ hk) hrec]
    rfl

theorem parseJson_renderObj {M : List (String × List Int)}
    (hk : ∀ kv ∈ M, KeyOk kv.1) :
    parseJson (renderObj M) = some (toJson M) := by
  have hdata : (renderObj M).data = renderObjChars M := rfl
  rw [parseJson, hdata]
  have h1 : parseValue ((renderObjChars M).length + 1) (renderObjChars M ++ [])
      = some (toJson M, []) :=
    parseValue_renderObjChars hk (by simp)
  rw [List.append_nil] at h1
  rw [h1]
  rfl

/-! ## Lemmas about the fenced-block regex scan -/

theorem tryFenceAt_cons_ne {c : Char} (h : c ≠ '`') (l : List Char) :
    tryFenceAt (c :: l) = none := by
  rcases l with _ | ⟨a, l⟩
  · rfl
  rcases l with _ | ⟨b, l⟩
  · rfl
  simp [tryFenceAt, h]

theorem matchFenced_append_left {p : List Char} (hp : ∀ c ∈ p, c ≠ '`') (t : List Char) :
    matchFenced (p ++ t) = matchFenced t := by
  induction p with
  | nil => rfl
  | cons c p ih =>
    rw [List.cons_append, matchFenced.eq_def]
    dsimp only
    rw [tryFenceAt_cons_ne (hp c (List.mem_cons_self c p)) _]
    exact ih (fun d hd => hp d (List.mem_cons_of_mem c hd))

theorem findClose_append {mid : List Char} (hmid : '}' ∉ mid) {rest : List Char}
    (hrest : fenceAfter rest = true) :
    ∀ acc, findClose acc (mid ++ '}' :: rest) = some (acc.reverse ++ mid) := by
  induction mid with
  | nil =>
    intro acc
    rw [List.nil_append, findClose.eq_def]
    dsimp only
    rw [if_pos (by simp [hrest])]
    simp
  | cons m mid ih =>
    intro acc
    have hm : m ≠ '}' := fun he => hmid (he ▸ List.mem_cons_self m mid)
    rw [List.cons_append, findClose.eq_def]
    dsimp only
    rw [if_neg (by simp [hm])]
    rw [ih (fun hin => hmid (List.mem_cons_of_mem m hin)) (m :: acc)]
    simp

theorem fenceAfter_nl (s : List Char) : fenceAfter ('\n' :: '`' :: '`' :: '`' :: s) = true := by
  unfold fenceAfter
  rw [List.dropWhile_cons, if_pos (show isRegexWs '\n' = true from rfl),
    List.dropWhile_cons, if_neg (show ¬isRegexWs '`' = true from by decide)]
  rfl

theorem tryFenceAt_fence {mid s : List Char} (hmid : '}' ∉ mid) :
    tryFenceAt ('`' :: '`' :: '`' :: 'j' :: 's' :: 'o' :: 'n' :: '\n' ::
        (('{' :: (mid ++ ['}'])) ++ '\n' :: '`' :: '`' :: '`' :: s))
      = some ('{' :: (mid ++ ['}'])) := by
  unfold tryFenceAt
  dsimp only
  rw [if_pos (by decide)]
  rw [show stripJsonTag ('j' :: 's' :: 'o' :: 'n' :: '\n' ::
      (('{' :: (mid ++ ['}'])) ++ '\n' :: '`' :: '`' :: '`' :: s))
    = '\n' :: (('{' :: (mid ++ ['}'])) ++ '\n' :: '`' :: '`' :: '`' :: s) from rfl]
  rw [List.dropWhile_cons, if_pos (show isRegexWs '\n' = true from rfl),
    List.cons_append, List.dropWhile_cons,
    if_neg (show ¬isRegexWs '{' = true from by decide)]
  rw [List.append_assoc, List.cons_append]
  simp only [List.nil_append]
  change (if ('{' : Char) = '{' then Option.map _ (findClose [] _) else none) = _
  rw [if_pos rfl, findClose_append hmid (by exact fenceAfter_nl s) []]
  simp

theorem matchFenced_fence {p : List Char} (hp : ∀ c ∈ p, c ≠ '`') {mid s : List Char}
    (hmid : '}' ∉ mid) :
    matchFenced (p ++ '`' :: '`' :: '`' :: 'j' :: 's' :: 'o' :: 'n' :: '\n' ::
        (('{' :: (mid ++ ['}'])) ++ '\n' :: '`' :: '`' :: '`' :: s))
      = some ('{' :: (mid ++ ['}'])) := by
  rw [matchFenced_append_left hp, matchFenced.eq_def]
  dsimp only
  rw [tryFenceAt_fence hmid]

/-! ## Characters of the rendered mapping -/

theorem renderNat_chars (n : Nat) : ∀ c ∈ renderNat n, isDig c = true :=
  renderNatAux_digits (Nat.lt_succ_self n)

theorem renderInt_no_rbrace (n : Int) : '}' ∉ renderInt n := by
  intro hmem
  rw [renderInt] at hmem
  by_cases hneg : n < 0
  · rw [if_pos hneg] at hmem
    rcases List.mem_cons.mp hmem with h | h
    · cases h
    · exact absurd rfl (isDig_ne_of (renderNat_chars _ _ h) (by decide)).symm
  · rw [if_neg hneg] at hmem
    exact absurd rfl (isDig_ne_of (renderNat_chars _ _ hmem) (by decide)).symm

theorem renderElems_no_rbrace (l : List Int) : '}' ∉ renderElems l := by
  induction l with
  | nil => simp [renderElems]
  | cons i is ih =>
    intro hmem
    cases is with
    | nil => exact renderInt_no_rbrace i (by simpa [renderElems] using hmem)
    | cons j js =>
      rw [show renderElems (i :: j :: js) = renderInt i ++ ',' :: renderElems (j :: js)
        from rfl] at hmem
      rcases List.mem_append.mp hmem with h | h
      · exact renderInt_no_rbrace i h
      · rcases List.mem_cons.mp h with h | h
        · cases h
        · exact ih h

theorem renderArr_no_rbrace (l : List Int) : '}' ∉ renderArr l := by
  intro hmem
  rw [renderArr] at hmem
  rcases List.mem_append.mp hmem with h | h
  · rcases List.mem_cons.mp h with h | h
    · cases h
    · exact renderElems_no_rbrace l h
  · simp at h

theorem renderMember_no_rbrace {k : String} (hk : KeyOkL k.data) (l : List Int) :
    '}' ∉ renderMember k l := by
  intro hmem
  rw [renderMember] at hmem
  rcases List.mem_cons.mp hmem with h | h
  · cases h
  rcases List.mem_append.mp h with h | h
  · exact (hk _ h).2.2.1 rfl
  rcases List.mem_cons.mp h with h | h
  · cases h
  rcases List.mem_cons.mp h with h | h
  · cases h
  · exact renderArr_no_rbrace l h

theorem renderMembers_no_rbrace {M : List (String × List Int)}
    (hk : ∀ kv ∈ M, KeyOkL kv.1.data) : '}' ∉ renderMembers M := by
  induction M with
  | nil => simp [renderMembers]
  | cons kv M ih =>
    obtain ⟨k, l⟩ := kv
    intro hmem
    have hkk : KeyOkL k.data := hk (k, l) (List.mem_cons_self _ _)
    cases M with
    | nil =>
      exact renderMember_no_rbrace hkk l (by simpa [renderMembers] using hmem)
    | cons kv2 M2 =>
      rw [show renderMembers ((k, l) :: kv2 :: M2)
          = renderMember k l ++ ',' :: renderMembers (kv2 :: M2) from rfl] at hmem
      rcases List.mem_append.mp hmem with h | h
      · exact renderMember_no_rbrace hkk l h
      · rcases List.mem_cons.mp h with h | h
        · cases h
        · exact ih (fun kv hkv => hk kv (List.mem_cons_of_mem _ hkv)) h

/-! ## Recovery of a fenced rendered mapping -/

theorem string_data_append (a b : String) : (a ++ b).data = a.data ++ b.data := rfl

theorem fenceWrap_data (p s j : String) :
    (fenceWrap p s j).data
      = p.data ++ '`' :: '`' :: '`' :: 'j' :: 's' :: 'o' :: 'n' :: '\n' ::
          (j.data ++ '\n' :: '`' :: '`' :: '`' :: s.data) := by
  rw [fenceWrap]
  rw [string_data_append, string_data_append, string_data_append, string_data_append]
  rw [show ("```json\n" : String).data = ['`', '`', '`', 'j', 's', 'o', 'n', '\n'] from rfl,
    show ("\n```" : String).data = ['\n', '`', '`', '`'] from rfl]
  simp

theorem renderObjChars_shape (M : List (String × List Int)) :
    renderObjChars M = '{' :: (renderMembers M ++ ['}']) := by
  rw [renderObjChars, List.cons_append]

theorem recoverJson_fenceWrap {M : List (String × List Int)} {p s : String}
    (hk : ∀ kv ∈ M, KeyOk kv.1) (hp : ∀ c ∈ p.data, c ≠ '`')
    (hparse : parseJson (fenceWrap p s (renderObj M)) = none) :
    recoverJson (fenceWrap p s (renderObj M)) = .ok (toJson M) := by
  have hdata : (renderObj M).data = renderObjChars M := rfl
  have hfence : matchFenced (fenceWrap p s (renderObj M)).data
      = some ('{' :: (renderMembers M ++ ['}'])) := by
    rw [fenceWrap_data, hdata, renderObjChars_shape]
    exact matchFenced_fence hp (renderMembers_no_rbrace hk)
  have hpj : parseJson ⟨'{' :: (renderMembers M ++ ['}'])⟩ = some (toJson M) := by
    rw [show (⟨'{' :: (renderMembers M ++ ['}'])⟩ : String) = renderObj M from
      congrArg String.mk (renderObjChars_shape M).symm]
    exact parseJson_renderObj hk
  unfold recoverJson
  rw [hparse]
  dsimp only
  rw [hfence]
  dsimp only
  rw [hpj]

/-! ## Both regexes require a brace -/

theorem mem_of_mem_stripJsonTag {c : Char} {l : List Char} (h : c ∈ stripJsonTag l) :
    c ∈ l := by
  rcases l with _ | ⟨a, _ | ⟨b, _ | ⟨d, _ | ⟨e, t⟩⟩⟩⟩ <;> try exact h
  rw [stripJsonTag] at h
  by_cases hc : (a = 'j' && b = 's' && d = 'o' && e = 'n') = true
  · rw [if_pos hc] at h
    exact List.mem_cons_of_mem _ (List.mem_cons_of_mem _
      (List.mem_cons_of_mem _ (List.mem_cons_of_mem _ h)))
  · rwa [if_neg hc] at h

theorem tryFenceAt_some_mem {cs g : List Char} (h : tryFenceAt cs = some g) : '{' ∈ cs := by
  rcases cs with _ | ⟨c1, _ | ⟨c2, _ | ⟨c3, rest⟩⟩⟩
  · exact absurd h (by simp [tryFenceAt])
  · exact absurd h (by simp [tryFenceAt])
  · exact absurd h (by simp [tryFenceAt])
  rw [tryFenceAt] at h
  by_cases hb : (c1 = '`' && c2 = '`' && c3 = '`') = true
  · rw [if_pos hb] at h
    rcases hd : (stripJsonTag rest).dropWhile isRegexWs with _ | ⟨c, body⟩
    · rw [hd] at h
      exact absurd h (by simp)
    · rw [hd] at h
      dsimp only at h
      by_cases hc : c = '{'
      · subst hc
        have h1 : '{' ∈ (stripJsonTag rest).dropWhile isRegexWs := by
          rw [hd]; exact List.mem_cons_self _ _
        have h2 : '{' ∈ stripJsonTag rest :=
          (List.dropWhile_suffix isRegexWs).subset h1
        have h3 : '{' ∈ rest := mem_of_mem_stripJsonTag h2
        exact List.mem_cons_of_mem _ (List.mem_cons_of_mem _ (List.mem_cons_of_mem _ h3))
      · rw [if_neg hc] at h
        exact absurd h (by simp)
  · rw [if_neg hb] at h
    exact absurd h (by simp)

theorem matchFenced_some_mem {cs g : List Char} (h : matchFenced cs = some g) : '{' ∈ cs := by
  induction cs with
  | nil => exact absurd h (by simp [matchFenced])
  | cons c rest ih =>
    rw [matchFenced.eq_def] at h
    dsimp only at h
    rcases ht : tryFenceAt (c :: rest) with _ | g2
    · rw [ht] at h
      exact List.mem_cons_of_mem _ (ih h)
    · exact tryFenceAt_some_mem ht

theorem matchBare_none {cs : List Char} (h : '{' ∉ cs) : matchBare cs = none := by
  have hnil : cs.dropWhile (fun c => ¬(c = '{')) = [] := by
    rw [List.dropWhile_eq_nil_iff]
    intro x hx
    simp only [decide_eq_true_eq]
    exact fun he => h (he ▸ hx)
  rw [matchBare, hnil]

/-! ## The bounded error excerpt -/

theorem string_length_data (s : String) : s.length = s.data.length := rfl

theorem jsTake500_le (s : String) : (jsTake500 s).length ≤ 500 := by
  rw [jsTake500, string_length_data]
  simp [List.length_take]

theorem jsTake500_ne_of_long {s : String} (h : 500 < s.length) : jsTake500 s ≠ s := by
  intro he
  have h1 : (jsTake500 s).length = 500 := by
    rw [jsTake500, string_length_data]
    simp only [List.length_take]
    rw [string_length_data] at h
    omega
  rw [he] at h1
  omega

theorem recoverJson_error_shape {text : String} {err : RecoverErr}
    (h : recoverJson text = .error err) :
    err = .parseFailed (jsTake500 text) ∨ err = .noJson (jsTake500 text) := by
  unfold recoverJson at h
  rcases h1 : parseJson text with _ | v
  · rw [h1] at h
    dsimp only at h
    rcases h2 : matchFenced text.data with _ | g
    · rw [h2] at h
      dsimp only at h
      rcases h3 : matchBare text.data with _ | g2
      · rw [h3] at h
        dsimp only at h
        right
        cases h
        rfl
      · rw [h3] at h
        dsimp only at h
        rcases h4 : parseJson ⟨g2⟩ with _ | v2
        · rw [h4] at h
          left
          cases h
          rfl
        · rw [h4] at h
          cases h
    · rw [h2] at h
      dsimp only at h
      rcases h4 : parseJson ⟨g⟩ with _ | v2
      · rw [h4] at h
        left
        cases h
        rfl
      · rw [h4] at h
        cases h
  · rw [h1] at h
    cases h

/-! ## Retry-loop and handler lemmas -/

theorem retry_first_success {oracle : Nat → Except JsError UResp} {r : UResp}
    (h0 : oracle 0 = .ok r) : runRetry oracle = (.ok r, [], 1) := by
  simp only [runRetry, retryGo, maxAttempts]
  rw [if_pos (by norm_num), h0]

theorem retry_second_success {oracle : Nat → Except JsError UResp} {e1 : JsError} {r : UResp}
    (h0 : oracle 0 = .error e1) (h1 : oracle 1 = .ok r) :
    runRetry oracle = (.ok r, [1000], 2) := by
  simp only [runRetry, retryGo, maxAttempts]
  rw [if_pos (by norm_num), h0]
  dsimp only
  rw [if_neg (by norm_num)]
  norm_num
  rw [h1]

theorem retry_third_success {oracle : Nat → Except JsError UResp} {e1 e2 : JsError} {r : UResp}
    (h0 : oracle 0 = .error e1) (h1 : oracle 1 = .error e2) (h2 : oracle 2 = .ok r) :
    runRetry oracle = (.ok r, [1000, 2000], 3) := by
  simp only [runRetry, retryGo, maxAttempts]
  rw [if_pos (by norm_num), h0]
  dsimp only
  rw [if_neg (by norm_num)]
  norm_num
  rw [h1]
  dsimp only
  rw [h2]

theorem retry_exhaust {oracle : Nat → Except JsError UResp} {e1 e2 e3 : JsError}
    (h0 : oracle 0 = .error e1) (h1 : oracle 1 = .error e2) (h2 : oracle 2 = .error e3) :
    runRetry oracle = (.error e3, [1000, 2000], 3) := by
  simp only [runRetry, retryGo, maxAttempts]
  rw [if_pos (by norm_num), h0]
  dsimp only
  rw [if_neg (by norm_num)]
  norm_num
  rw [h1]
  dsimp only
  rw [h2]

theorem string_length_eq_zero_iff {s : String} : s.length = 0 ↔ s = "" := by
  obtain ⟨l⟩ := s
  rw [string_length_data]
  simp only [List.length_eq_zero]
  constructor
  · rintro rfl; rfl
  · intro h; exact congrArg String.data h

theorem tabsRejected_arr (ts : List Tab) (h : ts ≠ []) : tabsRejected (.arr ts) = false := by
  simp [tabsRejected, truthyTabs, lengthIsZero, h]

theorem tabsRejected_str {s : String} (h : s ≠ "") : tabsRejected (.str s) = false := by
  have h0 : s.length ≠ 0 := fun he => h (string_length_eq_zero_iff.mp he)
  simp [tabsRejected, truthyTabs, lengthIsZero, h, h0]

theorem handleGroupTabs_arr_ok {ts : List Tab} {oracle : Nat → Except JsError UResp}
    (hts : ts ≠ []) {resp : UResp} {waits : List Nat} {calls : Nat}
    (hr : runRetry oracle = (.ok resp, waits, calls)) :
    handleGroupTabs (.arr ts) oracle = handleResponse resp calls waits := by
  unfold handleGroupTabs
  rw [if_neg (by rw [tabsRejected_arr ts hts]; exact Bool.false_ne_true)]
  dsimp only [jsMapTabs]
  rw [hr]

theorem handleGroupTabs_arr_err {ts : List Tab} {oracle : Nat → Except JsError UResp}
    (hts : ts ≠ []) {e : JsError} {waits : List Nat} {calls : Nat}
    (hr : runRetry oracle = (.error e, waits, calls)) :
    handleGroupTabs (.arr ts) oracle = ⟨500, wrongBody e.message, calls, waits⟩ := by
  unfold handleGroupTabs
  rw [if_neg (by rw [tabsRejected_arr ts hts]; exact Bool.false_ne_true)]
  dsimp only [jsMapTabs]
  rw [hr]

/-! ## The JS array join is the standard intercalation -/

theorem foldl_join_eq_go (sep : String) (as : List String) :
    ∀ acc : String, as.foldl (fun acc y => acc ++ sep ++ y) acc
      = String.intercalate.go acc sep as := by
  induction as with
  | nil => intro acc; rfl
  | cons a as ih =>
    intro acc
    rw [List.foldl_cons, ih (acc ++ sep ++ a)]
    rfl

theorem joinSep_eq_intercalate (sep : String) (l : List String) :
    joinSep sep l = String.intercalate sep l := by
  cases l with
  | nil => rfl
  | cons a as =>
    rw [joinSep, String.intercalate, foldl_join_eq_go sep as a]

/-! ## The claims -/

/-- C1, counterexample: the claim says the validator rejects arrays and the
pipeline fails on every parsed array.  In the code the check is
`typeof groups !== "object" || groups === null`, and `typeof [] === "object"`,
so an upstream text `"[1,2]"` parses to an array, passes validation, and the
handler returns HTTP 200 with the array as the body after one upstream
call. -/
theorem c1_counterexample :
    handleGroupTabs (.arr [⟨1, "Tab", "http://t"⟩])
        (fun _ => .ok (.obj (some "[1,2]") none))
      = ⟨200, .arr [.num ⟨1, 0⟩, .num ⟨2, 0⟩], 1, []⟩ := rfl

/-- C1, amended: the structural validation accepts exactly the objects and
the arrays (rejecting strings, numbers, booleans and null); arrays are not
rejected. -/
theorem c1_validator_amended :
    ∀ v : JsonValue, groupRejected v = false ↔
      ((∃ kvs, v = JsonValue.obj kvs) ∨ (∃ xs, v = JsonValue.arr xs)) := by
  intro v
  cases v <;> simp [groupRejected, jsTypeof]

/-- C2, counterexample: for the mapping `{"} ```": [1]}` (a legal JSON object
whose key contains a closing brace followed by backticks), rendering it inside
a fenced block with no surrounding prose makes the lazy fenced-block regex
capture the spurious group `{"}`, which fails to parse, so recovery ends in a
ParseError instead of returning the mapping. -/
theorem c2_counterexample :
    recoverJson (fenceWrap "" "" (renderObj [("\x7d ```", [1])]))
      = .error (.parseFailed (fenceWrap "" "" (renderObj [("\x7d ```", [1])]))) := rfl

/-- C2, amended: the fenced round-trip holds for every mapping whose keys
contain no `"`, `\`, `}` or control characters, embedded after any
backtick-free leading prose and before arbitrary trailing prose, provided the
whole text is not itself valid JSON (otherwise the direct parse returns that
other value first). -/
theorem c2_roundtrip_amended (M : List (String × List Int)) (p s : String)
    (hk : ∀ kv ∈ M, KeyOk kv.1) (hnd : (M.map Prod.fst).Nodup)
    (hp : ∀ c ∈ p.data, c ≠ '`')
    (hparse : parseJson (fenceWrap p s (renderObj M)) = none) :
    recoverJson (fenceWrap p s (renderObj M)) = .ok (toJson M) :=
  recoverJson_fenceWrap hk hp hparse

/-- C2, witness: a concrete two-category mapping fenced inside prose is
recovered exactly. -/
theorem c2_roundtrip_witness :
    recoverJson (fenceWrap "Sure! Here is the grouping: " " Anything else?"
        (renderObj [("Work", [1, 2]), ("News", [3])]))
      = .ok (toJson [("Work", [1, 2]), ("News", [3])]) :=
  c2_roundtrip_amended [("Work", [1, 2]), ("News", [3])] _ _
    (by decide) (by decide) (by decide) rfl

/-- C3: an upstream failing on attempts 1 and 2 and succeeding on attempt 3
yields exactly 3 calls, waits of 1000ms then 2000ms, and the 3rd response;
a first-attempt success makes exactly one call with no waits; and the
pipeline continues past the retry loop with the 3rd attempt's response. -/
theorem c3_retry_behavior :
    (∀ (oracle : Nat → Except JsError UResp) (e1 e2 : JsError) (r : UResp),
      oracle 0 = .error e1 → oracle 1 = .error e2 → oracle 2 = .ok r →
      runRetry oracle = (.ok r, [1000, 2000], 3)) ∧
    (∀ (oracle : Nat → Except JsError UResp) (r : UResp),
      oracle 0 = .ok r → runRetry oracle = (.ok r, [], 1)) ∧
    (∀ (ts : List Tab) (oracle : Nat → Except JsError UResp) (e1 e2 : JsError),
      ts ≠ [] → oracle 0 = .error e1 → oracle 1 = .error e2 →
      oracle 2 = .ok (.obj (some "\x7b\x7d") none) →
      handleGroupTabs (.arr ts) oracle = ⟨200, .obj [], 3, [1000, 2000]⟩) := by
  refine ⟨fun oracle e1 e2 r h0 h1 h2 => retry_third_success h0 h1 h2,
    fun oracle r h0 => retry_first_success h0,
    fun ts oracle e1 e2 hts h0 h1 h2 => ?_⟩
  rw [handleGroupTabs_arr_ok hts (retry_third_success h0 h1 h2)]
  rfl

/-- C3, witness: a concrete oracle failing twice then succeeding. -/
theorem c3_retry_witness :
    runRetry (fun n => if n = 0 then .error ⟨"boom1"⟩ else if n = 1 then .error ⟨"boom2"⟩
        else .ok (.obj (some "\x7b\x7d") none))
      = (.ok (.obj (some "\x7b\x7d") none), [1000, 2000], 3) :=
  c3_retry_behavior.1 _ ⟨"boom1"⟩ ⟨"boom2"⟩ _ rfl rfl rfl

/-- C4: an upstream failing on all attempts is called exactly 3 times (never
a 4th), the loop rethrows the 3rd error, and the handler answers 500 with
"Something went wrong" and the final error's message as `details`. -/
theorem c4_retry_exhaustion :
    (∀ (oracle : Nat → Except JsError UResp) (e1 e2 e3 : JsError),
      oracle 0 = .error e1 → oracle 1 = .error e2 → oracle 2 = .error e3 →
      runRetry oracle = (.error e3, [1000, 2000], 3)) ∧
    (∀ (ts : List Tab) (oracle : Nat → Except JsError UResp) (e1 e2 e3 : JsError),
      ts ≠ [] → oracle 0 = .error e1 → oracle 1 = .error e2 → oracle 2 = .error e3 →
      handleGroupTabs (.arr ts) oracle = ⟨500, wrongBody e3.message, 3, [1000, 2000]⟩) :=
  ⟨fun oracle e1 e2 e3 h0 h1 h2 => retry_exhaust h0 h1 h2,
    fun ts oracle e1 e2 e3 hts h0 h1 h2 =>
      handleGroupTabs_arr_err hts (retry_exhaust h0 h1 h2)⟩

/-- C4, witness: a concrete always-failing oracle. -/
theorem c4_retry_witness :
    handleGroupTabs (.arr [⟨1, "Tab", "http://t"⟩]) (fun _ => .error ⟨"service down"⟩)
      = ⟨500, wrongBody "service down", 3, [1000, 2000]⟩ :=
  c4_retry_exhaustion.2 _ _ ⟨"service down"⟩ ⟨"service down"⟩ ⟨"service down"⟩
    (by simp) rfl rfl rfl

/-- C5: the extractor prefers a non-empty direct text field over everything
(even when a nested candidate structure is present), then non-empty nested
candidate text, and finally a bare string response. -/
theorem c5_extractor_precedence :
    (∀ (s : String) (cands : Option (List GCand)), s ≠ "" →
      extractText (.obj (some s) cands) = some s) ∧
    (∀ (t : Option String) (cands : Option (List GCand)) (s : String),
      truthyStr t = false → nestedText (.obj t cands) = some s → s ≠ "" →
      extractText (.obj t cands) = some s) ∧
    (∀ s : String, extractText (.str s) = some s) := by
  refine ⟨fun s cands hs => ?_, fun t cands s ht hn hs => ?_, fun s => rfl⟩
  · unfold extractText
    rw [if_pos (by simp [directText, truthyStr, hs])]
    rfl
  · unfold extractText
    rw [if_neg (by simp [directText, ht]), if_pos (by simp [hn, truthyStr, hs]), hn]

/-- C5, witness: both a non-empty direct field and a nested candidate text are
present; the direct field wins. -/
theorem c5_extractor_witness :
    extractText (.obj (some "direct") (some [⟨some ⟨some [⟨some "nested"⟩]⟩⟩]))
      = some "direct" :=
  c5_extractor_precedence.1 "direct" _ (by decide)

/-- C6, counterexample: the text `"[1, 2]"` contains no braces, yet the
direct `JSON.parse` succeeds, so recovery returns the array instead of
failing with a ParseError — and the value does reach the validator. -/
theorem c6_counterexample :
    recoverJson "[1, 2]" = .ok (.arr [.num ⟨1, 0⟩, .num ⟨2, 0⟩]) := rfl

/-- C6, amended: for every text with no `{` and no `}` on which the direct
strict parse also fails, recovery fails with the "No valid JSON found"
ParseError (neither regex can match without a brace). -/
theorem c6_nojson_amended (text : String)
    (hnb : ∀ c ∈ text.data, c ≠ '{' ∧ c ≠ '}')
    (hparse : parseJson text = none) :
    recoverJson text = .error (.noJson (jsTake500 text)) := by
  unfold recoverJson
  rw [hparse]
  dsimp only
  have hf : matchFenced text.data = none := by
    rcases h : matchFenced text.data with _ | g
    · rfl
    · exact absurd rfl (hnb '{' (matchFenced_some_mem h)).1
  rw [hf]
  dsimp only
  rw [matchBare_none (fun hin => (hnb '{' hin).1 rfl)]

/-- C6, witness: a concrete brace-free, non-JSON text. -/
theorem c6_nojson_witness :
    recoverJson "the model returned nothing useful"
      = .error (.noJson (jsTake500 "the model returned nothing useful")) :=
  c6_nojson_amended _ (by decide) rfl

/-- C7: a missing tabs field or an empty tab list yields HTTP 400 with body
exactly `{"error": "No tabs provided"}` and zero upstream calls; a non-empty
tab list passes input validation. -/
theorem c7_input_validation :
    (∀ oracle, handleGroupTabs .undef oracle = ⟨400, noTabsBody, 0, []⟩) ∧
    (∀ oracle, handleGroupTabs (.arr []) oracle = ⟨400, noTabsBody, 0, []⟩) ∧
    (∀ ts : List Tab, ts ≠ [] → tabsRejected (.arr ts) = false) :=
  ⟨fun _ => rfl, fun _ => rfl, fun ts hts => tabsRejected_arr ts hts⟩

/-- C7, witness: a one-tab list passes validation. -/
theorem c7_input_witness : tabsRejected (.arr [⟨1, "Tab", "http://t"⟩]) = false :=
  c7_input_validation.2.2 _ (by simp)

/-- C8, counterexample: the claim says the ParseError payload never carries
the full extracted text; for the 4-character text "oops" the payload
`substring(0, 500)` IS the full text. -/
theorem c8_counterexample :
    recoverJson "oops" = .error (.noJson "oops") ∧ jsTake500 "oops" = "oops" :=
  ⟨rfl, rfl⟩

/-- C8, amended: every recovery failure carries exactly the first 500
characters of the extracted text — at most 500 characters, and a strict
prefix (never the full text) whenever the text is longer than 500. -/
theorem c8_excerpt_amended (text : String) (err : RecoverErr)
    (h : recoverJson text = .error err) :
    (err = .parseFailed (jsTake500 text) ∨ err = .noJson (jsTake500 text)) ∧
    (jsTake500 text).length ≤ 500 ∧
    (500 < text.length → jsTake500 text ≠ text) :=
  ⟨recoverJson_error_shape h, jsTake500_le text, fun hl => jsTake500_ne_of_long hl⟩

/-- A 501-character extracted text, used to witness the excerpt bound. -/
def longText : String := ⟨List.replicate 501 'x'⟩

/-- C8, witness: on a 501-character non-JSON text the payload is the
500-character prefix, which is not the full text. -/
theorem c8_excerpt_witness :
    ((RecoverErr.noJson (jsTake500 longText) = .parseFailed (jsTake500 longText)) ∨
      (RecoverErr.noJson (jsTake500 longText) = .noJson (jsTake500 longText))) ∧
    (jsTake500 longText).length ≤ 500 ∧
    (500 < longText.length → jsTake500 longText ≠ longText) :=
  c8_excerpt_amended longText _ rfl

/-- C9: the prompt builder serializes each tab, in batch order, as
`` ID:<id> | <title> (<url>) ``, joins the lines with newlines (the JS
accumulator join agrees with the standard intercalation), embeds them after
the fixed instruction template, and is deterministic. -/
theorem c9_prompt_builder :
    (∀ ts : List Tab, ts ≠ [] →
      buildPrompt (ts.map fmtTab)
        = promptHeader ++ String.intercalate "\n" (ts.map fmtTab)) ∧
    (∀ t : Tab, fmtTab t = "ID:" ++ toString t.id ++ " | " ++ t.title ++ " (" ++ t.url ++ ")") ∧
    (∀ ts1 ts2 : List Tab, ts1 = ts2 → buildPrompt (ts1.map fmtTab) = buildPrompt (ts2.map fmtTab)) :=
  ⟨fun ts _ => by rw [buildPrompt, joinSep_eq_intercalate],
    fun t => rfl,
    fun ts1 ts2 h => by rw [h]⟩

/-- C9, witness: the prompt for a concrete one-tab batch. -/
theorem c9_prompt_witness :
    buildPrompt ([(⟨1, "Tab", "http://t"⟩ : Tab)].map fmtTab)
      = promptHeader ++ String.intercalate "\n" ([(⟨1, "Tab", "http://t"⟩ : Tab)].map fmtTab) :=
  c9_prompt_builder.1 _ (by simp)

/-- C10: input validation only checks truthiness and `length === 0`, so a
truthy non-array `tabs` value (a plain object with no `length`, or a
non-empty string) passes validation, and the request then dies in
serialization (`tabs.map` is not a function) with a 500
"Something went wrong" rather than the 400 input error. -/
theorem c10_truthy_nonarray :
    (∀ s : String, s ≠ "" → tabsRejected (.str s) = false) ∧
    (tabsRejected .plainObj = false) ∧
    (∀ (s : String) oracle, s ≠ "" → handleGroupTabs (.str s) oracle
        = ⟨500, wrongBody "tabs.map is not a function", 0, []⟩) ∧
    (∀ oracle, handleGroupTabs .plainObj oracle
        = ⟨500, wrongBody "tabs.map is not a function", 0, []⟩) := by
  refine ⟨fun s hs => tabsRejected_str hs, rfl, fun s oracle hs => ?_, fun oracle => rfl⟩
  unfold handleGroupTabs
  rw [if_neg (by rw [tabsRejected_str hs]; exact Bool.false_ne_true)]
  rfl

/-- C10, witness: a non-empty string as the tabs value passes validation and
produces the generic 500. -/
theorem c10_truthy_witness :
    handleGroupTabs (.str "abc") (fun _ => .ok (.str "ignored"))
      = ⟨500, wrongBody "tabs.map is not a function", 0, []⟩ :=
  c10_truthy_nonarray.2.2.1 "abc" _ (by decide)

end TabOrganizer
